import Mathlib

/-!
Verification of the RouteRover appointment scheduling and availability engine.

Time is modelled in absolute minutes: an instant is an integer number of
minutes, and a calendar day `d` starts at minute `1440 * d`.  A clock time
`h:m` on day `d` is the instant `1440 * d + 60 * h + m`.  All interval
reasoning in the source is done through `moment` comparisons on instants,
which this embedding mirrors with integer comparisons.
-/

namespace RouteRover

/-- A time interval, mirroring the source objects of shape
`{start, end}` (ISO timestamps).  `end` is a reserved word in Lean, so the
second field is named `stop`. -/
structure Slot where
  start : Int
  stop : Int
deriving DecidableEq, Repr

/-- The instant of clock time `h:m` on day `d`. -/
def minutesAt (d h m : Int) : Int := 1440 * d + 60 * h + m

/-- Business hours: `BUSINESS_HOURS.start = 9`; start of the working day. -/
def businessStart (date : Int) : Int := minutesAt date 9 0

/-- Business hours: `BUSINESS_HOURS.end = 17`; end of the working day. -/
def businessEnd (date : Int) : Int := minutesAt date 17 0

/-- The overlap test of `getAvailableTimeSlots`:
`appointmentStart.isBefore(slotEnd) && appointmentEnd.isAfter(slotStart)`. -/
def overlapsSlot (a s : Slot) : Bool :=
  decide (a.start < s.stop) && decide (a.stop > s.start)

/-- The two replacement pieces pushed by `getAvailableTimeSlots` when an
appointment `a` overlaps a slot `s`: a before-piece when
`appointmentStart.isAfter(slotStart)` and an after-piece when
`appointmentEnd.isBefore(slotEnd)`, in that push order. -/
def splitPieces (a s : Slot) : List Slot :=
  (if a.start > s.start then [Slot.mk s.start a.start] else []) ++
  (if a.stop < s.stop then [Slot.mk a.stop s.stop] else [])

/-- One pass of the inner `for` loop of `getAvailableTimeSlots` over the
slot array for a single appointment `a`.  The JS loop splices overlapping
slots out in place (with the `i--` index fix-up) and pushes their
replacement pieces at the end of the array; the pieces themselves never
overlap `a` again, so the loop is equivalent to keeping the
non-overlapping slots in order followed by the pieces of each overlapped
slot in order. -/
def removeOverlaps (a : Slot) (slots : List Slot) : List Slot :=
  slots.filter (fun s => !(overlapsSlot a s)) ++
    (slots.filter (fun s => overlapsSlot a s)).flatMap (splitPieces a)

/-- `getAvailableTimeSlots(date, existingAppointments)`: starts from the
single full business-hours interval of the day and removes every
appointment in list order. -/
def getAvailableTimeSlots (date : Int) (existingAppointments : List Slot) :
    List Slot :=
  existingAppointments.foldl (fun acc a => removeOverlaps a acc)
    [Slot.mk (businessStart date) (businessEnd date)]

/-- The effect of processing one appointment on one slot: the overlapped
slot is replaced by its pieces, a non-overlapped slot is kept.  Used only
in proofs, to describe `removeOverlaps` membership one slot at a time. -/
def stepOne (a s : Slot) : List Slot :=
  if overlapsSlot a s then splitPieces a s else [s]

/-- The preference test of `findBestTimeSlot`:
`preferredDateTime.isBetween(slotStart, slotEnd, null, "[)")` for some
available slot — half-open containment of the preferred instant. -/
def prefMatches (slots : List Slot) (p : Int) : Bool :=
  slots.any (fun s => decide (s.start ≤ p) && decide (p < s.stop))

/-- `findBestTimeSlot(timePreferences, routeAnalysis)`: scans the ranked
preferences in order and returns the first whose instant lies inside some
available slot; otherwise falls back to the start of
`availableTimeSlots[0]` when that array is non-empty, and returns `null`
(`none`) when it is empty.  A preference `{date, time}` is represented by
its instant. -/
def findBestTimeSlot (timePreferences : List Int)
    (availableTimeSlots : List Slot) : Option Int :=
  match timePreferences.find? (prefMatches availableTimeSlots) with
  | some p => some p
  | none =>
    match availableTimeSlots with
    | [] => none
    | s :: _ => some s.start

/-- A calendar event as mapped by `getAppointmentsForDay` from the Google
Calendar response (`id`, `summary`, `location`, `start`, `end`,
`status`). -/
structure CalendarEvent where
  id : String
  summary : String
  location : String
  start : Int
  stop : Int
  status : String
deriving DecidableEq, Repr

/-- `getAppointmentsForDay(date)`: the calendar store call either
succeeds with the day events or fails; the source wraps the call in
`try`/`catch` and on any error logs and returns `[]` (the mock-data
fallback).  The store outcome is the explicit parameter. -/
def getAppointmentsForDay (storeResponse : Except String (List CalendarEvent)) :
    List CalendarEvent :=
  match storeResponse with
  | Except.ok events => events
  | Except.error _ => []

/-- The result object of `analyzeRoute`: `availableTimeSlots`,
`suggestedAlternatives` (represented by their start instants) and
`estimatedTravelTime` in minutes. -/
structure RouteAnalysis where
  availableTimeSlots : List Slot
  suggestedAlternatives : List Int
  estimatedTravelTime : Int
deriving DecidableEq, Repr

/-- The hard-coded result `analyzeRoute` returns from its `catch` block:
two windows tomorrow (09:00–12:00 and 14:00–17:00), alternatives at their
starts, and a 30-minute travel estimate. -/
def mockRouteAnalysis (today : Int) : RouteAnalysis where
  availableTimeSlots :=
    [Slot.mk (minutesAt (today + 1) 9 0) (minutesAt (today + 1) 12 0),
     Slot.mk (minutesAt (today + 1) 14 0) (minutesAt (today + 1) 17 0)]
  suggestedAlternatives := [minutesAt (today + 1) 9 0, minutesAt (today + 1) 14 0]
  estimatedTravelTime := 30

/-- `analyzeRoute(newAppointmentAddress, existingAppointments)`: the body
(geocoding, travel times, route optimisation, slot search) either
produces a result or throws; the `catch` block returns
`mockRouteAnalysis` instead of propagating the error.  The body outcome
is the explicit parameter. -/
def analyzeRoute (today : Int) (body : Except String RouteAnalysis) :
    RouteAnalysis :=
  match body with
  | Except.ok r => r
  | Except.error _ => mockRouteAnalysis today

/-- The request body fields read by the `bookAppointment` controller.
`altDate`/`altTime` model `req.body["alt-date"]`/`req.body["alt-time"]`. -/
structure BookingRequestBody where
  name : Option String
  address : Option String
  service : Option String
  date : Option String
  time : Option String
  notes : Option String
  altDate : Option String
  altTime : Option String

/-- JS truthiness test `!x` for a string-valued request field: an absent
field or the empty string is falsy. -/
def isFalsy (field : Option String) : Bool :=
  match field with
  | none => true
  | some s => s.isEmpty

/-- The externally visible side effects of one `bookAppointment` call:
how many calendar reads, route analyses and appointment creations were
performed. -/
structure Effects where
  calendarReads : Nat
  routeAnalyses : Nat
  appointmentsCreated : Nat
deriving DecidableEq, Repr

/-- The `bookAppointment` controller: validates the five required fields
(JS truthiness), then reads the day appointments, runs the route
analysis, picks the best slot, and either creates the appointment (201)
or reports no suitable slot (409).  Missing fields short-circuit with 400
before any collaborator call.  `parse` converts a `{date, time}` string
pair to an instant; `storeResponse` and `routeBody` are the collaborator
outcomes.  The result is the HTTP status together with the effects
performed. -/
def bookAppointment (parse : String → String → Int)
    (body : BookingRequestBody)
    (storeResponse : Except String (List CalendarEvent))
    (today : Int)
    (routeBody : List CalendarEvent → Except String RouteAnalysis) :
    Nat × Effects :=
  if isFalsy body.name || isFalsy body.address || isFalsy body.service ||
      isFalsy body.date || isFalsy body.time then
    (400, Effects.mk 0 0 0)
  else
    let timePreferences :=
      [parse (body.date.getD "") (body.time.getD "")] ++
        (if !(isFalsy body.altDate) && !(isFalsy body.altTime) then
          [parse (body.altDate.getD "") (body.altTime.getD "")]
        else [])
    let existingAppointments := getAppointmentsForDay storeResponse
    let routeAnalysis := analyzeRoute today (routeBody existingAppointments)
    match findBestTimeSlot timePreferences routeAnalysis.availableTimeSlots with
    | none => (409, Effects.mk 1 1 0)
    | some _ => (201, Effects.mk 1 1 1)

/-- Half-open containment of the duration-extended preference interval
`[p, p + dur)` in a single constrained interval, as the spec describes
it. -/
def containedWithDuration (p dur : Int) (s : Slot) : Prop :=
  s.start ≤ p ∧ p + dur ≤ s.stop

/-- Two slots do not overlap: their half-open intervals share no point of
positive length. -/
def slotsDisjoint (x y : Slot) : Prop :=
  ¬(x.start < y.stop ∧ y.start < x.stop)

lemma mem_stepOne {a s x : Slot} :
    x ∈ stepOne a s ↔
      (overlapsSlot a s = false ∧ x = s) ∨
        (overlapsSlot a s = true ∧ x ∈ splitPieces a s) := by
  unfold stepOne
  cases h : overlapsSlot a s <;> simp [h]

lemma mem_removeOverlaps {a x : Slot} {L : List Slot} :
    x ∈ removeOverlaps a L ↔ ∃ s ∈ L, x ∈ stepOne a s := by
  unfold removeOverlaps
  simp only [List.mem_append, List.mem_filter, List.mem_flatMap, mem_stepOne,
    Bool.not_eq_true']
  constructor
  · rintro (⟨hx, hov⟩ | ⟨s, ⟨hs, hov⟩, hp⟩)
    · exact ⟨x, hx, Or.inl ⟨hov, rfl⟩⟩
    · exact ⟨s, hs, Or.inr ⟨hov, hp⟩⟩
  · rintro ⟨s, hs, (⟨hov, rfl⟩ | ⟨hov, hp⟩)⟩
    · exact Or.inl ⟨hs, hov⟩
    · exact Or.inr ⟨s, ⟨hs, hov⟩, hp⟩

lemma removeOverlaps_singleton (a s : Slot) :
    removeOverlaps a [s] = if overlapsSlot a s then splitPieces a s else [s] := by
  unfold removeOverlaps
  cases h : overlapsSlot a s <;> simp [h]

lemma splitPieces_pos {a s x : Slot} (hx : x ∈ splitPieces a s) :
    x.start < x.stop := by
  unfold splitPieces at hx
  rcases List.mem_append.mp hx with h | h
  · by_cases hc : a.start > s.start
    · rw [if_pos hc] at h
      simp only [List.mem_singleton] at h
      subst h
      exact hc
    · rw [if_neg hc] at h
      simp at h
  · by_cases hc : a.stop < s.stop
    · rw [if_pos hc] at h
      simp only [List.mem_singleton] at h
      subst h
      exact hc
    · rw [if_neg hc] at h
      simp at h

lemma stepOne_pos {a s x : Slot} (hs : s.start < s.stop) (hx : x ∈ stepOne a s) :
    x.start < x.stop := by
  rcases mem_stepOne.mp hx with ⟨_, rfl⟩ | ⟨_, hp⟩
  · exact hs
  · exact splitPieces_pos hp

lemma removeOverlaps_pos {a : Slot} {L : List Slot}
    (hL : ∀ s ∈ L, s.start < s.stop) :
    ∀ x ∈ removeOverlaps a L, x.start < x.stop := by
  intro x hx
  obtain ⟨s, hs, hstep⟩ := mem_removeOverlaps.mp hx
  exact stepOne_pos (hL s hs) hstep

lemma foldl_removeOverlaps_pos (booked : List Slot) :
    ∀ L : List Slot, (∀ s ∈ L, s.start < s.stop) →
      ∀ x ∈ booked.foldl (fun acc a => removeOverlaps a acc) L,
        x.start < x.stop := by
  induction booked with
  | nil => intro L hL x hx; exact hL x hx
  | cons a rest ih =>
    intro L hL x hx
    exact ih (removeOverlaps a L) (removeOverlaps_pos hL) x hx

lemma getAvailableTimeSlots_pos (date : Int) (booked : List Slot) :
    ∀ x ∈ getAvailableTimeSlots date booked, x.start < x.stop := by
  apply foldl_removeOverlaps_pos
  intro s hs
  simp only [List.mem_singleton] at hs
  subst hs
  show businessStart date < businessEnd date
  unfold businessStart businessEnd minutesAt
  omega

lemma slotsDisjoint_symm : Symmetric slotsDisjoint := by
  intro x y h
  unfold slotsDisjoint at h ⊢
  tauto

lemma splitPieces_sub {a s p : Slot} (hov : overlapsSlot a s = true)
    (hp : p ∈ splitPieces a s) : s.start ≤ p.start ∧ p.stop ≤ s.stop := by
  simp only [overlapsSlot, Bool.and_eq_true, decide_eq_true_eq] at hov
  unfold splitPieces at hp
  rcases List.mem_append.mp hp with h | h
  · by_cases hc : a.start > s.start
    · rw [if_pos hc] at h
      simp only [List.mem_singleton] at h
      subst h
      exact ⟨le_refl _, le_of_lt hov.1⟩
    · rw [if_neg hc] at h
      simp at h
  · by_cases hc : a.stop < s.stop
    · rw [if_pos hc] at h
      simp only [List.mem_singleton] at h
      subst h
      exact ⟨le_of_lt hov.2, le_refl _⟩
    · rw [if_neg hc] at h
      simp at h

lemma splitPieces_pairwise {a s : Slot} (ha : a.start ≤ a.stop) :
    List.Pairwise slotsDisjoint (splitPieces a s) := by
  unfold splitPieces
  split_ifs with h1 h2 h3
  · simp [slotsDisjoint]
    omega
  · simp
  · simp
  · simp

lemma removeOverlaps_sub {a p : Slot} {L : List Slot}
    (hp : p ∈ removeOverlaps a L) :
    ∃ s ∈ L, s.start ≤ p.start ∧ p.stop ≤ s.stop := by
  obtain ⟨s, hs, hstep⟩ := mem_removeOverlaps.mp hp
  rcases mem_stepOne.mp hstep with ⟨_, rfl⟩ | ⟨hov, hpieces⟩
  · exact ⟨p, hs, le_refl _, le_refl _⟩
  · exact ⟨s, hs, splitPieces_sub hov hpieces⟩

lemma removeOverlaps_pairwise {a : Slot} (ha : a.start ≤ a.stop) :
    ∀ L : List Slot, List.Pairwise slotsDisjoint L →
      List.Pairwise slotsDisjoint (removeOverlaps a L) := by
  intro L
  induction L with
  | nil =>
    intro
    simp [removeOverlaps]
  | cons s L' ih =>
    intro hL
    rw [List.pairwise_cons] at hL
    obtain ⟨hsL, hL'⟩ := hL
    by_cases hov : overlapsSlot a s = true
    · have h1 : removeOverlaps a (s :: L') =
          (L'.filter fun t => !overlapsSlot a t) ++
            (splitPieces a s ++
              (L'.filter fun t => overlapsSlot a t).flatMap (splitPieces a)) := by
        unfold removeOverlaps
        rw [List.filter_cons, List.filter_cons]
        simp [hov]
      have hperm : List.Perm (removeOverlaps a (s :: L'))
          (splitPieces a s ++ removeOverlaps a L') := by
        rw [h1]
        show List.Perm _ (splitPieces a s ++
          ((L'.filter fun t => !overlapsSlot a t) ++
            (L'.filter fun t => overlapsSlot a t).flatMap (splitPieces a)))
        rw [← List.append_assoc, ← List.append_assoc]
        exact List.Perm.append_right _ List.perm_append_comm
      rw [hperm.pairwise_iff fun hxy => slotsDisjoint_symm hxy]
      rw [List.pairwise_append]
      refine ⟨splitPieces_pairwise ha, ih hL', ?_⟩
      intro p hp q hq
      obtain ⟨t, ht, hqt1, hqt2⟩ := removeOverlaps_sub hq
      have hst : slotsDisjoint s t := hsL t ht
      have hps := splitPieces_sub hov hp
      unfold slotsDisjoint at hst ⊢
      omega
    · have heq : removeOverlaps a (s :: L') = s :: removeOverlaps a L' := by
        unfold removeOverlaps
        rw [List.filter_cons, List.filter_cons]
        simp [hov]
      rw [heq, List.pairwise_cons]
      refine ⟨?_, ih hL'⟩
      intro q hq
      obtain ⟨t, ht, hqt1, hqt2⟩ := removeOverlaps_sub hq
      have hst : slotsDisjoint s t := hsL t ht
      unfold slotsDisjoint at hst ⊢
      omega

lemma foldl_removeOverlaps_pairwise {booked : List Slot}
    (hwf : ∀ a ∈ booked, a.start ≤ a.stop) :
    ∀ L : List Slot, List.Pairwise slotsDisjoint L →
      List.Pairwise slotsDisjoint
        (booked.foldl (fun acc a => removeOverlaps a acc) L) := by
  induction booked with
  | nil =>
    intro L hL
    exact hL
  | cons a rest ih =>
    intro L hL
    have ha : a.start ≤ a.stop := hwf a (List.mem_cons_self a rest)
    exact ih (fun b hb => hwf b (List.mem_cons_of_mem a hb))
      (removeOverlaps a L) (removeOverlaps_pairwise ha L hL)

lemma overlapsSlot_iff {a s : Slot} :
    overlapsSlot a s = true ↔ a.start < s.stop ∧ s.start < a.stop := by
  simp [overlapsSlot]

lemma mem_splitPieces {a s x : Slot} :
    x ∈ splitPieces a s ↔
      (s.start < a.start ∧ x = Slot.mk s.start a.start) ∨
        (a.stop < s.stop ∧ x = Slot.mk a.stop s.stop) := by
  unfold splitPieces
  by_cases h1 : s.start < a.start
  · rw [if_pos h1]
    by_cases h2 : a.stop < s.stop
    · rw [if_pos h2]
      simp [h1, h2]
    · rw [if_neg h2]
      simp [h1, h2]
  · rw [if_neg h1]
    by_cases h2 : a.stop < s.stop
    · rw [if_pos h2]
      simp [h1, h2]
    · rw [if_neg h2]
      simp [h1, h2]

lemma mem_stepOne_iff {a s x : Slot} :
    x ∈ stepOne a s ↔
      (¬(a.start < s.stop ∧ s.start < a.stop) ∧ x = s) ∨
        ((a.start < s.stop ∧ s.start < a.stop) ∧
          ((s.start < a.start ∧ x = Slot.mk s.start a.start) ∨
            (a.stop < s.stop ∧ x = Slot.mk a.stop s.stop))) := by
  unfold stepOne
  by_cases hov : a.start < s.stop ∧ s.start < a.stop
  · rw [if_pos (overlapsSlot_iff.mpr hov), mem_splitPieces]
    simp [hov]
  · rw [if_neg (fun h => hov (overlapsSlot_iff.mp h))]
    simp [hov]

lemma mem_stepOne_flatMap {a b s x : Slot} :
    x ∈ (stepOne a s).flatMap (stepOne b) ↔
      (¬(a.start < s.stop ∧ s.start < a.stop) ∧ x ∈ stepOne b s) ∨
        ((a.start < s.stop ∧ s.start < a.stop) ∧
          ((s.start < a.start ∧ x ∈ stepOne b (Slot.mk s.start a.start)) ∨
            (a.stop < s.stop ∧ x ∈ stepOne b (Slot.mk a.stop s.stop)))) := by
  rw [List.mem_flatMap]
  constructor
  · rintro ⟨t, ht, hx⟩
    rcases mem_stepOne_iff.mp ht with ⟨hov, rfl⟩ | ⟨hov, ⟨h1, rfl⟩ | ⟨h2, rfl⟩⟩
    · exact Or.inl ⟨hov, hx⟩
    · exact Or.inr ⟨hov, Or.inl ⟨h1, hx⟩⟩
    · exact Or.inr ⟨hov, Or.inr ⟨h2, hx⟩⟩
  · rintro (⟨hov, hx⟩ | ⟨hov, ⟨h1, hx⟩ | ⟨h2, hx⟩⟩)
    · exact ⟨s, mem_stepOne_iff.mpr (Or.inl ⟨hov, rfl⟩), hx⟩
    · exact ⟨_, mem_stepOne_iff.mpr (Or.inr ⟨hov, Or.inl ⟨h1, rfl⟩⟩), hx⟩
    · exact ⟨_, mem_stepOne_iff.mpr (Or.inr ⟨hov, Or.inr ⟨h2, rfl⟩⟩), hx⟩

lemma start_mk (u v : Int) : (Slot.mk u v).start = u := rfl

lemma stop_mk (u v : Int) : (Slot.mk u v).stop = v := rfl

lemma stepOne_self_mem {a s : Slot} (h : ¬(a.start < s.stop ∧ s.start < a.stop)) :
    s ∈ stepOne a s :=
  mem_stepOne_iff.mpr (Or.inl ⟨h, rfl⟩)

lemma stepOne_before_mem {a s : Slot} (hov : a.start < s.stop ∧ s.start < a.stop)
    (h1 : s.start < a.start) : Slot.mk s.start a.start ∈ stepOne a s :=
  mem_stepOne_iff.mpr (Or.inr ⟨hov, Or.inl ⟨h1, rfl⟩⟩)

lemma stepOne_after_mem {a s : Slot} (hov : a.start < s.stop ∧ s.start < a.stop)
    (h2 : a.stop < s.stop) : Slot.mk a.stop s.stop ∈ stepOne a s :=
  mem_stepOne_iff.mpr (Or.inr ⟨hov, Or.inr ⟨h2, rfl⟩⟩)

lemma stepOne_swap_imp {a b s x : Slot} (ha : a.start < a.stop)
    (hb : b.start < b.stop) (hs : s.start < s.stop)
    (hx : x ∈ (stepOne a s).flatMap (stepOne b)) :
    x ∈ (stepOne b s).flatMap (stepOne a) := by
  obtain ⟨a1, a2⟩ := a
  obtain ⟨b1, b2⟩ := b
  obtain ⟨s1, s2⟩ := s
  simp only [start_mk, stop_mk] at ha hb hs
  rw [mem_stepOne_flatMap] at hx
  rw [List.mem_flatMap]
  simp only [start_mk, stop_mk] at hx
  rcases hx with ⟨hovA, hxs⟩ | ⟨hovA, ⟨hg1, hxp⟩ | ⟨hg2, hxp⟩⟩
  · rw [mem_stepOne_iff] at hxs
    simp only [start_mk, stop_mk] at hxs
    rcases hxs with ⟨hovB, rfl⟩ | ⟨hovB, ⟨hq1, rfl⟩ | ⟨hq2, rfl⟩⟩
    · -- L1a: neither a nor b overlaps s
      exact ⟨Slot.mk s1 s2,
        stepOne_self_mem (by simp only [start_mk, stop_mk]; omega),
        stepOne_self_mem (by simp only [start_mk, stop_mk]; omega)⟩
    · -- L1b: before-piece of b; a does not touch it
      exact ⟨Slot.mk s1 b1,
        stepOne_before_mem (by simp only [start_mk, stop_mk]; omega)
          (by simp only [start_mk, stop_mk]; omega),
        stepOne_self_mem (by simp only [start_mk, stop_mk]; omega)⟩
    · -- L1c: after-piece of b; a does not touch it
      exact ⟨Slot.mk b2 s2,
        stepOne_after_mem (by simp only [start_mk, stop_mk]; omega)
          (by simp only [start_mk, stop_mk]; omega),
        stepOne_self_mem (by simp only [start_mk, stop_mk]; omega)⟩
  · rw [mem_stepOne_iff] at hxp
    simp only [start_mk, stop_mk] at hxp
    rcases hxp with ⟨hovB, rfl⟩ | ⟨hovB, ⟨hq1, rfl⟩ | ⟨hq2, rfl⟩⟩
    · -- L2a: b does not overlap the before-piece of a; x is that piece
      by_cases hovBs : b1 < s2 ∧ s1 < b2
      · by_cases hab : a1 < b1
        · exact ⟨Slot.mk s1 b1,
            stepOne_before_mem (by simp only [start_mk, stop_mk]; omega)
              (by simp only [start_mk, stop_mk]; omega),
            stepOne_before_mem (by simp only [start_mk, stop_mk]; omega)
              (by simp only [start_mk, stop_mk]; omega)⟩
        · have hE : b1 = a1 := by omega
          subst hE
          exact ⟨Slot.mk s1 b1,
            stepOne_before_mem (by simp only [start_mk, stop_mk]; omega)
              (by simp only [start_mk, stop_mk]; omega),
            stepOne_self_mem (by simp only [start_mk, stop_mk]; omega)⟩
      · exact ⟨Slot.mk s1 s2,
          stepOne_self_mem (by simp only [start_mk, stop_mk]; omega),
          stepOne_before_mem (by simp only [start_mk, stop_mk]; omega)
            (by simp only [start_mk, stop_mk]; omega)⟩
    · -- L2b: before-piece of b inside the before-piece of a
      exact ⟨Slot.mk s1 b1,
        stepOne_before_mem (by simp only [start_mk, stop_mk]; omega)
          (by simp only [start_mk, stop_mk]; omega),
        stepOne_self_mem (by simp only [start_mk, stop_mk]; omega)⟩
    · -- L2c: x = [b.stop, a.start); the after-piece of b, trimmed by a
      exact ⟨Slot.mk b2 s2,
        stepOne_after_mem (by simp only [start_mk, stop_mk]; omega)
          (by simp only [start_mk, stop_mk]; omega),
        stepOne_before_mem (by simp only [start_mk, stop_mk]; omega)
          (by simp only [start_mk, stop_mk]; omega)⟩
  · rw [mem_stepOne_iff] at hxp
    simp only [start_mk, stop_mk] at hxp
    rcases hxp with ⟨hovB, rfl⟩ | ⟨hovB, ⟨hq1, rfl⟩ | ⟨hq2, rfl⟩⟩
    · -- L3a: b does not overlap the after-piece of a; x is that piece
      by_cases hovBs : b1 < s2 ∧ s1 < b2
      · by_cases hba : b2 < a2
        · exact ⟨Slot.mk b2 s2,
            stepOne_after_mem (by simp only [start_mk, stop_mk]; omega)
              (by simp only [start_mk, stop_mk]; omega),
            stepOne_after_mem (by simp only [start_mk, stop_mk]; omega)
              (by simp only [start_mk, stop_mk]; omega)⟩
        · have hE : b2 = a2 := by omega
          subst hE
          exact ⟨Slot.mk b2 s2,
            stepOne_after_mem (by simp only [start_mk, stop_mk]; omega)
              (by simp only [start_mk, stop_mk]; omega),
            stepOne_self_mem (by simp only [start_mk, stop_mk]; omega)⟩
      · exact ⟨Slot.mk s1 s2,
          stepOne_self_mem (by simp only [start_mk, stop_mk]; omega),
          stepOne_after_mem (by simp only [start_mk, stop_mk]; omega)
            (by simp only [start_mk, stop_mk]; omega)⟩
    · -- L3b: x = [a.stop, b.start); the before-piece of b, trimmed by a
      exact ⟨Slot.mk s1 b1,
        stepOne_before_mem (by simp only [start_mk, stop_mk]; omega)
          (by simp only [start_mk, stop_mk]; omega),
        stepOne_after_mem (by simp only [start_mk, stop_mk]; omega)
          (by simp only [start_mk, stop_mk]; omega)⟩
    · -- L3c: after-piece of b to the right of a
      exact ⟨Slot.mk b2 s2,
        stepOne_after_mem (by simp only [start_mk, stop_mk]; omega)
          (by simp only [start_mk, stop_mk]; omega),
        stepOne_self_mem (by simp only [start_mk, stop_mk]; omega)⟩

lemma stepOne_swap (a b s x : Slot) (ha : a.start < a.stop)
    (hb : b.start < b.stop) (hs : s.start < s.stop) :
    x ∈ (stepOne a s).flatMap (stepOne b) ↔
      x ∈ (stepOne b s).flatMap (stepOne a) :=
  ⟨fun h => stepOne_swap_imp ha hb hs h, fun h => stepOne_swap_imp hb ha hs h⟩

lemma removeOverlaps_removeOverlaps_mem {a b x : Slot} {L : List Slot} :
    x ∈ removeOverlaps b (removeOverlaps a L) ↔
      ∃ s ∈ L, x ∈ (stepOne a s).flatMap (stepOne b) := by
  rw [mem_removeOverlaps]
  constructor
  · rintro ⟨t, ht, hx⟩
    obtain ⟨s, hs, ht2⟩ := mem_removeOverlaps.mp ht
    exact ⟨s, hs, List.mem_flatMap.mpr ⟨t, ht2, hx⟩⟩
  · rintro ⟨s, hs, hx⟩
    obtain ⟨t, ht, hx2⟩ := List.mem_flatMap.mp hx
    exact ⟨t, mem_removeOverlaps.mpr ⟨s, hs, ht⟩, hx2⟩

lemma removeOverlaps_swap_mem {a b x : Slot} {L : List Slot}
    (ha : a.start < a.stop) (hb : b.start < b.stop)
    (hL : ∀ s ∈ L, s.start < s.stop) :
    x ∈ removeOverlaps b (removeOverlaps a L) ↔
      x ∈ removeOverlaps a (removeOverlaps b L) := by
  rw [removeOverlaps_removeOverlaps_mem, removeOverlaps_removeOverlaps_mem]
  constructor
  · rintro ⟨s, hs, hx⟩
    exact ⟨s, hs, (stepOne_swap a b s x ha hb (hL s hs)).mp hx⟩
  · rintro ⟨s, hs, hx⟩
    exact ⟨s, hs, (stepOne_swap a b s x ha hb (hL s hs)).mpr hx⟩

lemma removeOverlaps_mem_congr {a x : Slot} {L₁ L₂ : List Slot}
    (h : ∀ y, y ∈ L₁ ↔ y ∈ L₂) :
    x ∈ removeOverlaps a L₁ ↔ x ∈ removeOverlaps a L₂ := by
  rw [mem_removeOverlaps, mem_removeOverlaps]
  constructor
  · rintro ⟨s, hs, hx⟩
    exact ⟨s, (h s).mp hs, hx⟩
  · rintro ⟨s, hs, hx⟩
    exact ⟨s, (h s).mpr hs, hx⟩

lemma foldl_mem_congr (booked : List Slot) :
    ∀ L₁ L₂ : List Slot, (∀ y, y ∈ L₁ ↔ y ∈ L₂) →
      ∀ x, x ∈ booked.foldl (fun acc a => removeOverlaps a acc) L₁ ↔
        x ∈ booked.foldl (fun acc a => removeOverlaps a acc) L₂ := by
  induction booked with
  | nil =>
    intro L₁ L₂ h x
    exact h x
  | cons a rest ih =>
    intro L₁ L₂ h x
    simp only [List.foldl_cons]
    exact ih _ _ (fun y => removeOverlaps_mem_congr h) x

lemma foldl_mem_perm {b₁ b₂ : List Slot} (hperm : b₁.Perm b₂) :
    ∀ L : List Slot, (∀ s ∈ L, s.start < s.stop) →
      (∀ a ∈ b₁, a.start < a.stop) →
      ∀ x, x ∈ b₁.foldl (fun acc a => removeOverlaps a acc) L ↔
        x ∈ b₂.foldl (fun acc a => removeOverlaps a acc) L := by
  induction hperm with
  | nil =>
    intro L hL hwf x
    exact Iff.rfl
  | cons a h ih =>
    intro L hL hwf x
    simp only [List.foldl_cons]
    exact ih (removeOverlaps a L) (removeOverlaps_pos hL)
      (fun b hb => hwf b (List.mem_cons_of_mem a hb)) x
  | swap a b l =>
    intro L hL hwf x
    simp only [List.foldl_cons]
    apply foldl_mem_congr
    intro y
    have hb : b.start < b.stop := hwf b (List.mem_cons_self b (a :: l))
    have ha : a.start < a.stop :=
      hwf a (List.mem_cons_of_mem b (List.mem_cons_self a l))
    exact removeOverlaps_swap_mem hb ha hL
  | trans h₁ h₂ ih₁ ih₂ =>
    intro L hL hwf x
    exact (ih₁ L hL hwf x).trans
      (ih₂ L hL (fun a ha => hwf a (h₁.mem_iff.mpr ha)) x)

/-- The instant `t` lies inside some interval of `L` (half-open). -/
def coveredAt (L : List Slot) (t : Int) : Prop :=
  ∃ s ∈ L, s.start ≤ t ∧ t < s.stop

lemma stepOne_coveredAt (a s : Slot) (t : Int) :
    (∃ p ∈ stepOne a s, p.start ≤ t ∧ t < p.stop) ↔
      (s.start ≤ t ∧ t < s.stop) ∧ ¬(a.start ≤ t ∧ t < a.stop) := by
  unfold stepOne
  by_cases hov : overlapsSlot a s = true
  · rw [if_pos hov]
    simp only [overlapsSlot, Bool.and_eq_true, decide_eq_true_eq] at hov
    unfold splitPieces
    by_cases h1 : a.start > s.start <;> by_cases h2 : a.stop < s.stop <;>
      simp [h1, h2] <;> omega
  · rw [if_neg hov]
    simp only [overlapsSlot, Bool.and_eq_true, decide_eq_true_eq,
      not_and, not_lt] at hov
    simp only [List.mem_singleton, exists_eq_left]
    constructor
    · intro hs
      refine ⟨hs, ?_⟩
      intro hat
      rcases lt_or_le a.start s.stop with hlt | hle
      · have := hov hlt
        omega
      · omega
    · intro h
      exact h.1

lemma removeOverlaps_coveredAt (a : Slot) (L : List Slot) (t : Int) :
    coveredAt (removeOverlaps a L) t ↔
      coveredAt L t ∧ ¬(a.start ≤ t ∧ t < a.stop) := by
  unfold coveredAt
  constructor
  · rintro ⟨p, hp, hcov⟩
    obtain ⟨s, hs, hstep⟩ := mem_removeOverlaps.mp hp
    have h := (stepOne_coveredAt a s t).mp ⟨p, hstep, hcov⟩
    exact ⟨⟨s, hs, h.1⟩, h.2⟩
  · rintro ⟨⟨s, hs, hcov⟩, hna⟩
    obtain ⟨p, hp, hcov2⟩ := (stepOne_coveredAt a s t).mpr ⟨hcov, hna⟩
    exact ⟨p, mem_removeOverlaps.mpr ⟨s, hs, hp⟩, hcov2⟩

lemma foldl_coveredAt (booked : List Slot) :
    ∀ (L : List Slot) (t : Int),
      coveredAt (booked.foldl (fun acc a => removeOverlaps a acc) L) t ↔
        coveredAt L t ∧ ∀ a ∈ booked, ¬(a.start ≤ t ∧ t < a.stop) := by
  induction booked with
  | nil =>
    intro L t
    simp
  | cons a rest ih =>
    intro L t
    simp only [List.foldl_cons]
    rw [ih, removeOverlaps_coveredAt]
    simp only [List.forall_mem_cons]
    tauto

lemma getAvailableTimeSlots_coveredAt (date : Int) (booked : List Slot)
    (t : Int) :
    coveredAt (getAvailableTimeSlots date booked) t ↔
      (businessStart date ≤ t ∧ t < businessEnd date) ∧
        ¬∃ a ∈ booked, a.start ≤ t ∧ t < a.stop := by
  unfold getAvailableTimeSlots
  rw [foldl_coveredAt]
  unfold coveredAt
  simp only [List.mem_singleton, exists_eq_left]
  push_neg
  rfl

/-- C2 counterexample: with the calendar store unreachable,
`getAppointmentsForDay` does not fail the attempt — it silently returns
the empty appointment list. -/
theorem C2_counterexample :
    getAppointmentsForDay (Except.error "calendar store unreachable") = [] :=
  rfl

/-- C2 amended: when the calendar store is unreachable,
`getAppointmentsForDay` catches the error and silently substitutes the
empty appointment list for the day; no `LookupError` is surfaced to the
booking attempt. -/
theorem C2_empty_list_fallback (e : String) :
    getAppointmentsForDay (Except.error e) = [] :=
  rfl

/-- C3 counterexample: when the route-feasibility analysis throws, the
result handed to the rest of the booking attempt is not the free-interval
set unchanged (here the full free availability of day 0) but a fixed mock
window set for the next day. -/
theorem C3_counterexample :
    (analyzeRoute 0 (Except.error "route analysis failed")).availableTimeSlots ≠
      getAvailableTimeSlots 0 [] := by
  decide

/-- C3 amended: if the route-feasibility analysis fails, `analyzeRoute`
catches the error and returns the fixed mock feasibility result — two
next-day windows (09:00–12:00 and 14:00–17:00), alternatives at their
starts, and a 30-minute travel estimate — so the booking attempt
proceeds without any error being propagated; the free-interval set is
not what is returned. -/
theorem C3_fail_open_mock (today : Int) (e : String) :
    analyzeRoute today (Except.error e) = mockRouteAnalysis today :=
  rfl

/-- C1 counterexample: `findBestTimeSlot` returns the preference 09:30
against the single constrained interval 09:00–10:00 although for
duration 60 the duration-extended interval [09:30, 10:30) is not
contained in any constrained interval. -/
theorem C1_counterexample :
    findBestTimeSlot [570] [Slot.mk 540 600] = some 570 ∧
      (0 : Int) < 60 ∧
      ¬∃ s ∈ [Slot.mk 540 600], containedWithDuration 570 60 s := by
  refine ⟨rfl, by decide, ?_⟩
  simp [containedWithDuration]

/-- C1 amended: any preference selected by the preference scan of
`findBestTimeSlot` has its start instant contained in a single
constrained interval under half-open containment (a preference starting
exactly at a constrained interval's end is rejected); the
duration-extended end of the preference interval is not checked. -/
theorem C1_start_containment (timePreferences : List Int) (slots : List Slot)
    (p : Int) (h : timePreferences.find? (prefMatches slots) = some p) :
    findBestTimeSlot timePreferences slots = some p ∧
      ∃ s ∈ slots, s.start ≤ p ∧ p < s.stop := by
  constructor
  · unfold findBestTimeSlot
    rw [h]
  · have hp : prefMatches slots p = true := List.find?_some h
    simpa [prefMatches, List.any_eq_true, Bool.and_eq_true,
      decide_eq_true_eq] using hp

/-- Witness for C1 amended at a concrete matched preference. -/
theorem C1_start_containment_witness :
    findBestTimeSlot [570] [Slot.mk 540 600] = some 570 ∧
      ∃ s ∈ [Slot.mk 540 600], s.start ≤ 570 ∧ (570 : Int) < s.stop :=
  C1_start_containment [570] [Slot.mk 540 600] 570 (by decide)

/-- C8 counterexample: with no preferences and the non-empty constrained
set [13:00–17:00, 09:00–10:00], the fallback returns 13:00 although a
constrained interval starts earlier (09:00). -/
theorem C8_counterexample :
    findBestTimeSlot [] [Slot.mk 780 1020, Slot.mk 540 600] = some 780 ∧
      ∃ s ∈ [Slot.mk 780 1020, Slot.mk 540 600], s.start < 780 := by
  refine ⟨rfl, ?_⟩
  exact ⟨Slot.mk 540 600, by decide, by decide⟩

/-- C8 amended: when no preference satisfies containment and the
constrained set is non-empty, `findBestTimeSlot` returns the start of the
first listed constrained interval (`availableTimeSlots[0]`), which is
the earliest one only when the list is sorted ascending by start. -/
theorem C8_fallback_first (timePreferences : List Int) (s : Slot)
    (rest : List Slot)
    (h : timePreferences.find? (prefMatches (s :: rest)) = none) :
    findBestTimeSlot timePreferences (s :: rest) = some s.start := by
  unfold findBestTimeSlot
  rw [h]

/-- Witness for C8 amended at a concrete input with no matching
preference. -/
theorem C8_fallback_first_witness :
    findBestTimeSlot [100] [Slot.mk 540 600] = some 540 :=
  C8_fallback_first [100] (Slot.mk 540 600) [] (by decide)

/-- C4 counterexample: for day 0 with the well-formed, pairwise-disjoint
booked list [12:00–13:00, 10:00–11:00], `getAvailableTimeSlots` returns
[13:00–17:00, 09:00–10:00, 11:00–12:00], which is not ordered by start
ascending. -/
theorem C4_counterexample :
    getAvailableTimeSlots 0 [Slot.mk 720 780, Slot.mk 600 660] =
        [Slot.mk 780 1020, Slot.mk 540 600, Slot.mk 660 720] ∧
      ¬List.Pairwise (fun x y : Slot => x.start ≤ y.start)
        (getAvailableTimeSlots 0 [Slot.mk 720 780, Slot.mk 600 660]) := by
  refine ⟨by decide, ?_⟩
  intro h
  rw [show getAvailableTimeSlots 0 [Slot.mk 720 780, Slot.mk 600 660] =
      [Slot.mk 780 1020, Slot.mk 540 600, Slot.mk 660 720] from by decide] at h
  have := List.rel_of_pairwise_cons h (List.mem_cons_self _ _)
  simp at this

/-- C4 amended: `getAvailableTimeSlots` discards all zero-length
intervals (every returned interval has positive length), and it is a
pure function of its input, so calling it twice on identical input
yields an identically ordered result; the returned order, however, is
not in general ascending by start. -/
theorem C4_positive_and_deterministic (date : Int) (booked : List Slot) :
    (∀ s ∈ getAvailableTimeSlots date booked, s.start < s.stop) ∧
      getAvailableTimeSlots date booked = getAvailableTimeSlots date booked :=
  ⟨getAvailableTimeSlots_pos date booked, rfl⟩

/-- C6: subtracting one booked interval from a single base interval (the
code of the inner loop of `getAvailableTimeSlots`, run on a one-slot
array) yields at most two pieces; a disjoint cut leaves the base
unchanged; a cut fully covering the base yields the empty list; and the
scenario — business hours 09:00–17:00 with one booked interval
10:00–11:00 — yields exactly [09:00–10:00, 11:00–17:00]. -/
theorem C6_subtract_shape :
    (∀ a s : Slot, (removeOverlaps a [s]).length ≤ 2) ∧
      (∀ a s : Slot, overlapsSlot a s = false → removeOverlaps a [s] = [s]) ∧
      (∀ a s : Slot, s.start < s.stop → a.start ≤ s.start → s.stop ≤ a.stop →
        removeOverlaps a [s] = []) ∧
      getAvailableTimeSlots 0 [Slot.mk 600 660] =
        [Slot.mk 540 600, Slot.mk 660 1020] := by
  refine ⟨?_, ?_, ?_, by decide⟩
  · intro a s
    rw [removeOverlaps_singleton]
    cases h : overlapsSlot a s <;> simp [h]
    unfold splitPieces
    split_ifs <;> simp
  · intro a s h
    rw [removeOverlaps_singleton, h]
    rfl
  · intro a s hs h1 h2
    have hov : overlapsSlot a s = true := by
      simp only [overlapsSlot, Bool.and_eq_true, decide_eq_true_eq]
      omega
    rw [removeOverlaps_singleton, hov]
    show splitPieces a s = []
    unfold splitPieces
    rw [if_neg (show ¬a.start > s.start by omega),
      if_neg (show ¬a.stop < s.stop by omega)]
    rfl

/-- Witness for C6 at concrete disjoint and fully-covering cuts. -/
theorem C6_subtract_shape_witness :
    removeOverlaps (Slot.mk 0 10) [Slot.mk 300 400] = [Slot.mk 300 400] ∧
      removeOverlaps (Slot.mk 0 2000) [Slot.mk 540 1020] = [] :=
  ⟨C6_subtract_shape.2.1 (Slot.mk 0 10) (Slot.mk 300 400) (by decide),
    C6_subtract_shape.2.2.1 (Slot.mk 0 2000) (Slot.mk 540 1020) (by decide)
      (by decide) (by decide)⟩

/-- C5: for every day and every booked list satisfying the data-model
invariant `start < end`, no two intervals returned by
`getAvailableTimeSlots` overlap, and no returned interval has
`start >= end`. -/
theorem C5_nonoverlap (date : Int) (booked : List Slot)
    (hwf : ∀ a ∈ booked, a.start < a.stop) :
    List.Pairwise slotsDisjoint (getAvailableTimeSlots date booked) ∧
      ∀ s ∈ getAvailableTimeSlots date booked, s.start < s.stop := by
  refine ⟨?_, getAvailableTimeSlots_pos date booked⟩
  apply foldl_removeOverlaps_pairwise (fun a ha => le_of_lt (hwf a ha))
  simp

/-- Witness for C5 at day 0 with one well-formed booked interval. -/
theorem C5_nonoverlap_witness :
    List.Pairwise slotsDisjoint (getAvailableTimeSlots 0 [Slot.mk 600 660]) ∧
      ∀ s ∈ getAvailableTimeSlots 0 [Slot.mk 600 660], s.start < s.stop :=
  C5_nonoverlap 0 [Slot.mk 600 660] (by decide)

/-- C9: for every day, every booked list and every instant, the instant
lies in the business-hours window exactly when it is covered by a free
interval of `getAvailableTimeSlots` or lies (within business hours)
inside some booked interval; and no instant is covered both by a free
interval and by a booked interval (no double coverage). -/
theorem C9_closure (date : Int) (booked : List Slot) (t : Int) :
    ((businessStart date ≤ t ∧ t < businessEnd date) ↔
      coveredAt (getAvailableTimeSlots date booked) t ∨
        ((businessStart date ≤ t ∧ t < businessEnd date) ∧
          ∃ a ∈ booked, a.start ≤ t ∧ t < a.stop)) ∧
      ¬(coveredAt (getAvailableTimeSlots date booked) t ∧
          ∃ a ∈ booked, a.start ≤ t ∧ t < a.stop) := by
  simp only [getAvailableTimeSlots_coveredAt]
  constructor
  · constructor
    · intro ht
      by_cases hb : ∃ a ∈ booked, a.start ≤ t ∧ t < a.stop
      · exact Or.inr ⟨ht, hb⟩
      · exact Or.inl ⟨ht, hb⟩
    · rintro (⟨ht, _⟩ | ⟨ht, _⟩) <;> exact ht
  · rintro ⟨⟨_, hne⟩, he⟩
    exact hne he

/-- C7: for every day and any two booked lists that are permutations of
each other (with the data-model invariant `start < end`), the final
free-interval sets produced by `getAvailableTimeSlots` are equal as sets:
every interval occurs in one result exactly when it occurs in the
other. -/
theorem C7_subtraction_order_independent (date : Int) (b₁ b₂ : List Slot)
    (hperm : b₁.Perm b₂) (hwf : ∀ a ∈ b₁, a.start < a.stop) (x : Slot) :
    x ∈ getAvailableTimeSlots date b₁ ↔ x ∈ getAvailableTimeSlots date b₂ := by
  unfold getAvailableTimeSlots
  apply foldl_mem_perm hperm _ _ hwf
  intro s hs
  simp only [List.mem_singleton] at hs
  subst hs
  show businessStart date < businessEnd date
  unfold businessStart businessEnd minutesAt
  omega

/-- Witness for C7 at day 0 with two booked intervals listed in the two
possible orders. -/
theorem C7_subtraction_order_independent_witness :
    Slot.mk 540 600 ∈ getAvailableTimeSlots 0 [Slot.mk 600 660, Slot.mk 720 780] ↔
      Slot.mk 540 600 ∈ getAvailableTimeSlots 0 [Slot.mk 720 780, Slot.mk 600 660] :=
  C7_subtraction_order_independent 0 [Slot.mk 600 660, Slot.mk 720 780]
    [Slot.mk 720 780, Slot.mk 600 660]
    (List.Perm.swap (Slot.mk 720 780) (Slot.mk 600 660) [])
    (by decide) (Slot.mk 540 600)

/-- C10: a booking request missing any of the required fields `name`,
`address`, `service`, `date`, `time` is rejected with HTTP 400 before any
collaborator call: no calendar read, no route analysis, no appointment
creation. -/
theorem C10_validation_rejects (parse : String → String → Int)
    (body : BookingRequestBody)
    (storeResponse : Except String (List CalendarEvent)) (today : Int)
    (routeBody : List CalendarEvent → Except String RouteAnalysis)
    (h : body.name = none ∨ body.address = none ∨ body.service = none ∨
      body.date = none ∨ body.time = none) :
    bookAppointment parse body storeResponse today routeBody =
      (400, Effects.mk 0 0 0) := by
  unfold bookAppointment
  rcases h with h | h | h | h | h <;> rw [h] <;> simp [isFalsy]

/-- Witness for C10 at a request with a missing name field. -/
theorem C10_validation_rejects_witness :
    bookAppointment (fun _ _ => 0)
        (BookingRequestBody.mk none (some "1 Oak St") (some "cleaning")
          (some "2025-01-02") (some "09:00") none none none)
        (Except.ok []) 0 (fun _ => Except.error "unreachable") =
      (400, Effects.mk 0 0 0) :=
  C10_validation_rejects _ _ _ _ _ (Or.inl rfl)

end RouteRover
